/-
  Verification of the Squash client-side video compressor
  (encoder selection, capability probing, job queue orchestration,
  trim arithmetic, ffmpeg-worker file handling).

  Shallow embedding of the TypeScript sources:
    - src/lib/utils/compress.ts      (selectEncoder, processQueue, compressVideo,
                                      reprocessVideo, reprocessAllVideos)
    - src/lib/utils/webcodecs.ts     (getWebCodecsCapabilities, isEncodingSupported,
                                      getRecommendedCodecs, encodeWithWebCodecs)
    - src/lib/stores/videos.svelte.ts (VideoItem, getEffectiveDuration,
                                      updateSettings, reorderItems)
    - src/lib/workers/ffmpeg.worker.ts (compressVideo, buildFFmpegArgs)

  Asynchronous runtime queries (mediabunny canEncodeVideo / canEncodeAudio,
  VideoEncoder.isConfigSupported, the actual encode work, wall-clock reads)
  are modelled as explicit environment parameters; JavaScript numbers that
  hold media times are modelled as rationals, pixel dimensions as naturals.
-/
import Mathlib

namespace Squash

/-! ## Basic data model (src/lib/stores/videos.svelte.ts) -/

/-- The `OutputFormat` of the version of the store consumed by compress.ts:
the selector compares against the literal value `av1`. -/
inductive OutputFormat where
  | mp4
  | webm
  | av1
deriving DecidableEq, Repr

/-- The `VideoStatus`. -/
inductive VideoStatus where
  | pending
  | processing
  | completed
  | error
deriving DecidableEq, Repr

/-- Encoder channel (`EncoderType` in compress.ts). -/
inductive EncoderType where
  | webcodecs
  | ffmpeg
deriving DecidableEq, Repr

/-- Browser `Blob`: only its byte size is observable to the store. -/
structure Blob where
  size : Nat
deriving DecidableEq, Repr

/-- Browser `File` handle: the fields the core reads. -/
structure JSFile where
  size : Nat
  fname : String
deriving DecidableEq, Repr

/-- The `VideoItem` record of the store (fields used by the core). -/
structure VideoItem where
  id : String
  file : JSFile
  name : String
  originalSize : Nat
  compressedSize : Option Nat := none
  originalUrl : String
  compressedUrl : Option String := none
  compressedBlob : Option Blob := none
  outputFormat : OutputFormat
  status : VideoStatus
  progress : Nat
  progressStage : Option String := none
  eta : Option Int := none
  error : Option String := none
  width : Option Nat := none
  height : Option Nat := none
  duration : Option Rat := none
  previewUrl : Option String := none
  compressionDuration : Option Rat := none
  encoderUsed : Option EncoderType := none
  trimStart : Option Rat := none
  trimEnd : Option Rat := none
deriving DecidableEq, Repr

/-! ## WebCodecs capability model (src/lib/utils/webcodecs.ts) -/

/-- The `WebCodecsVideoCodec`. -/
inductive WebCodecsVideoCodec where
  | avc
  | vp9
  | av1
  | hevc
deriving DecidableEq, Repr

/-- The `WebCodecsAudioCodec`. -/
inductive WebCodecsAudioCodec where
  | aac
  | opus
deriving DecidableEq, Repr

/-- A width × height pair. -/
structure Resolution where
  width : Nat
  height : Nat
deriving DecidableEq, Repr

/-- The `WebCodecsCapabilities`. -/
structure WebCodecsCapabilities where
  supported : Bool
  hardwareAcceleration : Bool
  supportedVideoCodecs : List WebCodecsVideoCodec
  supportedAudioCodecs : List WebCodecsAudioCodec
  maxResolution : Resolution
deriving DecidableEq, Repr

/-- The `getRecommendedCodecs(outputFormat)` — webcodecs.ts.  The argument is the
container already collapsed to mp4/webm (`av1` is mapped to mp4 upstream),
so we take the two-valued condition exactly as the source does. -/
def getRecommendedCodecs (isWebm : Bool) : WebCodecsVideoCodec × WebCodecsAudioCodec :=
  if isWebm then (.vp9, .opus) else (.avc, .aac)

/-- The `videoCodec.toUpperCase()` rendering used in the selector's
codec-unavailable reason. -/
def codecUpperName (c : WebCodecsVideoCodec) : String :=
  match c with
  | .avc => "AVC"
  | .vp9 => "VP9"
  | .av1 => "AV1"
  | .hevc => "HEVC"

/-- The bitrate argument handed to `canEncodeVideo`: `QUALITY_MEDIUM` at the
codec-support call sites, `QUALITY_HIGH` at the max-resolution probe. -/
inductive ProbeQuality where
  | medium
  | high
deriving DecidableEq, Repr

/-- Runtime answers to the asynchronous probes issued by webcodecs.ts.
`Except String Bool` models a promise that may reject (the `.error` case)
or resolve to a boolean.  `canEncodeVideo` is keyed by codec, probed
resolution and bitrate quality, matching the mediabunny call sites. -/
structure ProbeEnv where
  webCodecsAvailable : Bool
  canEncodeVideo : WebCodecsVideoCodec → Resolution → ProbeQuality → Except String Bool
  canEncodeAudio : WebCodecsAudioCodec → Except String Bool
  hardwarePreferred : WebCodecsVideoCodec → Except String Bool

/-- The `isEncodingSupported(videoCodec, audioCodec, width, height)` — webcodecs.ts.
Returns false when the API is unavailable; any rejection inside the `try`
block yields false. -/
def isEncodingSupported (env : ProbeEnv) (videoCodec : WebCodecsVideoCodec)
    (audioCodec : WebCodecsAudioCodec) (width height : Nat) : Bool :=
  if !env.webCodecsAvailable then false
  else
    match env.canEncodeVideo videoCodec ⟨width, height⟩ .medium,
        env.canEncodeAudio audioCodec with
    | .ok v, .ok a => v && a
    | _, _ => false

/-! ## Encoder selector (compress.ts `selectEncoder`) -/

/-- The `selectEncoder(video, outputFormat)` — compress.ts.  The cached
capabilities (the result of `initWebCodecs()`) and the runtime probe
environment backing `isEncodingSupported` are explicit parameters. -/
def selectEncoder (capabilities : WebCodecsCapabilities) (env : ProbeEnv)
    (video : VideoItem) (outputFormat : OutputFormat) : EncoderType × String :=
  if outputFormat = .av1 then
    (.ffmpeg, "AV1 encoding optimized for FFmpeg")
  else if !capabilities.supported then
    (.ffmpeg, "WebCodecs not supported in this browser")
  else
    let isWebm := outputFormat ≠ .mp4
    let codecs := getRecommendedCodecs isWebm
    let videoCodec := codecs.1
    let audioCodec := codecs.2
    if !(capabilities.supportedVideoCodecs.contains videoCodec) then
      (.ffmpeg, codecUpperName videoCodec ++ " codec not supported")
    else
      let targetWidth := video.width.getD 1920
      let targetHeight := video.height.getD 1080
      if targetWidth > capabilities.maxResolution.width ∨
          targetHeight > capabilities.maxResolution.height then
        (.ffmpeg, "Resolution exceeds WebCodecs limits")
      else if !(isEncodingSupported env videoCodec audioCodec targetWidth targetHeight) then
        (.ffmpeg, "Encoding configuration not supported")
      else
        (.webcodecs,
          if capabilities.hardwareAcceleration then
            "Hardware encoding available (GPU accelerated)"
          else
            "Hardware encoding available")

/-! ## Capability prober (webcodecs.ts `getWebCodecsCapabilities`) -/

/-- The fixed candidate list `videoCodecTests` of webcodecs.ts. -/
def videoCodecTests : List WebCodecsVideoCodec := [.avc, .vp9, .av1, .hevc]

/-- The fixed candidate list `audioCodecTests` of webcodecs.ts. -/
def audioCodecTests : List WebCodecsAudioCodec := [.aac, .opus]

/-- The descending resolution probe list (4K, 1440p, 1080p). -/
def probeResolutions : List Resolution := [⟨3840, 2160⟩, ⟨2560, 1440⟩, ⟨1920, 1080⟩]

/-- The reference resolution used by the per-codec probes. -/
def referenceResolution : Resolution := ⟨1920, 1080⟩

/-- One `canEncodeVideo` probe inside its `try`: a rejected promise is caught
and treated as "not supported". -/
def probeVideoCodec (env : ProbeEnv) (c : WebCodecsVideoCodec) : Bool :=
  match env.canEncodeVideo c referenceResolution .medium with
  | .ok b => b
  | .error _ => false

/-- The nested hardware-preference probe inside its own `try`: a rejection
is caught and leaves the acceleration flag untouched. -/
def probeHardware (env : ProbeEnv) (c : WebCodecsVideoCodec) : Bool :=
  match env.hardwarePreferred c with
  | .ok b => b
  | .error _ => false

/-- One `canEncodeAudio` probe inside its `try`. -/
def probeAudioCodec (env : ProbeEnv) (c : WebCodecsAudioCodec) : Bool :=
  match env.canEncodeAudio c with
  | .ok b => b
  | .error _ => false

/-- The max-resolution loop: first probed resolution (against `avc`,
`QUALITY_HIGH`) that succeeds, defaulting to 1080p; a throwing probe is
caught and the loop continues. -/
def probeMaxResolution (env : ProbeEnv) : Resolution :=
  match probeResolutions.find? (fun r =>
      match env.canEncodeVideo .avc r .high with
      | .ok b => b
      | .error _ => false) with
  | some r => r
  | none => ⟨1920, 1080⟩

/-- The `getWebCodecsCapabilities()` — webcodecs.ts.  Total: every individual
probe is wrapped in a `try` in the source, so the promise never rejects;
this is why the embedding returns a plain `WebCodecsCapabilities` rather
than an `Except`. -/
def getWebCodecsCapabilities (env : ProbeEnv) : WebCodecsCapabilities :=
  if !env.webCodecsAvailable then
    { supported := false
      hardwareAcceleration := false
      supportedVideoCodecs := []
      supportedAudioCodecs := []
      maxResolution := ⟨0, 0⟩ }
  else
    let supportedVideoCodecs := videoCodecTests.filter (probeVideoCodec env)
    let hardwareAcceleration := supportedVideoCodecs.any (probeHardware env)
    let supportedAudioCodecs := audioCodecTests.filter (probeAudioCodec env)
    { supported := !supportedVideoCodecs.isEmpty
      hardwareAcceleration := hardwareAcceleration
      supportedVideoCodecs := supportedVideoCodecs
      supportedAudioCodecs := supportedAudioCodecs
      maxResolution := probeMaxResolution env }

/-! ## Store computations (videos.svelte.ts) -/

/-- The `getEffectiveDuration(video)` — videos.svelte.ts.  JavaScript's
`video.duration || 0` and `video.trimStart || 0` coincide with `getD 0`
on every real number (`0 || 0` is `0`), and `video.trimEnd ?? fullDuration`
is exactly `getD fullDuration`. -/
def getEffectiveDuration (video : VideoItem) : Rat :=
  let fullDuration := video.duration.getD 0
  if video.trimStart ≠ none ∨ video.trimEnd ≠ none then
    let start := video.trimStart.getD 0
    let stop := video.trimEnd.getD fullDuration
    max 0 (stop - start)
  else
    fullDuration

/-- The item rewrite performed by `updateSettings(newSettings)` when
`newSettings.outputFormat !== undefined` — videos.svelte.ts: pending items
get the new output format, all other items are returned as-is. -/
def updateSettingsItems (newOutputFormat : Option OutputFormat)
    (items : List VideoItem) : List VideoItem :=
  match newOutputFormat with
  | some fmt =>
      items.map (fun item =>
        if item.status = .pending then { item with outputFormat := fmt } else item)
  | none => items

/-- The `reorderItems(fromIndex, toIndex)` — videos.svelte.ts: splice the item
out at `fromIndex`, splice it back in at `toIndex`.  The `min` mirrors
`splice`'s clamping of the insertion index to the array length.  When
`fromIndex` is out of range the source would splice `undefined` into the
array, which has no typed counterpart; that case is outside every claim's
in-range precondition and we leave the list unchanged there. -/
def reorderItems (fromIndex toIndex : Nat) (items : List VideoItem) : List VideoItem :=
  match items[fromIndex]? with
  | some removed =>
      let rest := items.eraseIdx fromIndex
      rest.insertIdx (min toIndex rest.length) removed
  | none => items

/-! ## Hardware-path frame estimation (webcodecs.ts `encodeWithWebCodecs`) -/

/-- The `totalFrames` value reported by `encodeWithWebCodecs`:
initialised to `Math.ceil(duration * fps)` when a video track exists
(0 otherwise), then recomputed from the effective (trimmed) duration
`(trimEnd ?? duration) - (trimStart ?? 0)` whenever that differs from the
full duration.  `duration` is the full source duration from
`input.computeDuration()`, `fps` the detected or assumed frame rate. -/
def webCodecsTotalFrames (hasVideoTrack : Bool) (duration fps : Rat)
    (trimStart trimEnd : Option Rat) : Int :=
  let totalFrames0 : Int := if hasVideoTrack then ⌈duration * fps⌉ else 0
  let start := trimStart.getD 0
  let stop := trimEnd.getD duration
  let effectiveDuration := stop - start
  if effectiveDuration ≠ duration then ⌈effectiveDuration * fps⌉ else totalFrames0

/-! ## FFmpeg worker (src/lib/workers/ffmpeg.worker.ts) -/

/-- One command-line argument pushed by the worker.  Numeric arguments are
rendered with `toString()` in the source; we keep them as rationals so sign
properties are statable. -/
inductive FFToken where
  | str (s : String)
  | num (q : Rat)
deriving DecidableEq, Repr

/-- The `settings` object of a `compress` payload. -/
structure FFmpegSettings where
  crf : Nat
  targetBitrate : String
  preset : String
  resolution : Option String
  audioBitrate : String
  audioCodec : String
  stripMetadata : Bool
  twoPass : Bool
deriving DecidableEq, Repr

/-- The `scaleMap` lookup of `buildFFmpegArgs`. -/
def scaleMap (r : String) : Option String :=
  if r = "2160p" then some "3840:-2"
  else if r = "1440p" then some "2560:-2"
  else if r = "1080p" then some "1920:-2"
  else if r = "720p" then some "1280:-2"
  else if r = "480p" then some "854:-2"
  else if r = "360p" then some "640:-2"
  else none

/-- The `buildFFmpegArgs(input, output, format, settings, trimStart, trimEnd)` —
ffmpeg.worker.ts.  The `mp4` and `default` switch cases are identical in the
source, so only the `webm` test matters.  `settings.resolution &&` treats the
empty string as absent, which coincides with the `scaleMap` lookup failing.
`settings.audioCodec || 'aac'` falls back on the empty string. -/
def buildFFmpegArgs (input output : String) (format : String)
    (s : FFmpegSettings) (trimStart trimEnd : Option Rat) : List FFToken :=
  let ssArgs : List FFToken :=
    match trimStart with
    | some ts => if ts > 0 then [.str "-ss", .num ts] else []
    | none => []
  let tArgs : List FFToken :=
    match trimEnd with
    | some te => [.str "-t", .num (te - trimStart.getD 0)]
    | none => []
  let videoArgs : List FFToken :=
    if format = "webm" then
      [.str "-c:v", .str "libvpx-vp9", .str "-crf", .num s.crf,
       .str "-b:v", .str s.targetBitrate, .str "-deadline", .str "good",
       .str "-cpu-used", .str "2"]
    else
      [.str "-c:v", .str "libx264", .str "-crf", .num s.crf,
       .str "-preset", .str s.preset, .str "-movflags", .str "+faststart"]
  let scaleArgs : List FFToken :=
    match s.resolution with
    | some r =>
        if r ≠ "original" then
          match scaleMap r with
          | some sc => [.str "-vf", .str ("scale=" ++ sc)]
          | none => []
        else []
    | none => []
  let audioArgs : List FFToken :=
    if s.audioCodec = "none" then [.str "-an"]
    else if s.audioCodec = "copy" then [.str "-c:a", .str "copy"]
    else
      let ac := if format = "webm" then "libopus"
        else if s.audioCodec = "" then "aac" else s.audioCodec
      [.str "-c:a", .str ac, .str "-b:a", .str s.audioBitrate]
  let stripArgs : List FFToken :=
    if s.stripMetadata then
      [.str "-map_metadata", .str "-1", .str "-fflags", .str "+bitexact"]
    else []
  ssArgs ++ [.str "-i", .str input] ++ tArgs ++ videoArgs ++ scaleArgs ++
    audioArgs ++ stripArgs ++ [.str "-y", .str output]

/-- A `compress` payload (the opaque `fileData` bytes are irrelevant to the
file-handling claims and are carried by the worker environment instead). -/
structure CompressPayload where
  id : String
  fileName : String
  outputFormat : String
  settings : FFmpegSettings
  trimStart : Option Rat := none
  trimEnd : Option Rat := none
deriving DecidableEq, Repr

/-- The `fileName.split('.').pop() || 'mp4'`: the segment after the last dot
(the whole name when it has no dot — `pop` of a one-element split), with
the `'mp4'` fallback when that segment is the falsy empty string. -/
def workerInputExt (fileName : String) : String :=
  let ext := String.mk
    (fileName.data.foldl (fun acc c => if c = '.' then [] else acc ++ [c]) [])
  if ext = "" then "mp4" else ext

/-- The virtual input filename written by the worker. -/
def workerInputFilename (p : CompressPayload) : String :=
  "input_" ++ p.id ++ "." ++ workerInputExt p.fileName

/-- The virtual output filename produced by the worker. -/
def workerOutputFilename (p : CompressPayload) : String :=
  "output_" ++ p.id ++ "." ++ p.outputFormat

/-- First-pass analysis artifact of two-pass x264 encoding. -/
def twoPassLog : String := "ffmpeg2pass-0.log"

/-- Second analysis artifact of two-pass x264 encoding. -/
def twoPassLogMbtree : String := "ffmpeg2pass-0.log.mbtree"

/-- The `ffmpeg.writeFile`: the virtual FS gains the file. -/
def fsWrite (name : String) (fs : List String) : List String :=
  if name ∈ fs then fs else name :: fs

/-- The `ffmpeg.deleteFile`: rejects when the file is absent. -/
def fsDelete (name : String) (fs : List String) : Except String (List String) :=
  if name ∈ fs then .ok (fs.erase name) else .error "file not found"

/-- Result posted back by the worker for a `compress` request. -/
inductive WorkerReply where
  | complete (outputBytes : Nat) (outputFormat : String)
  | err (msg : String)
deriving DecidableEq, Repr

/-- Outcomes of the runtime work the worker awaits: the first-pass `exec`,
the main `exec`, and the byte size produced on success. -/
structure WorkerEnv where
  loaded : Bool
  execFirstPass : Except String Unit
  execMain : Except String Unit
  outputBytes : Nat

/-- The `compressVideo(payload)` of ffmpeg.worker.ts, as a function from the
virtual FS to (posted reply, final FS).  Control flow mirrors the source:
everything runs in one `try`; the `catch` posts an error and performs no
cleanup; the pass-log deletions sit in their own `try` whose failure is
swallowed (so a failing first deletion also skips the second).  The
`readFile` of the just-written output file is modelled as succeeding. -/
def workerCompressVideo (env : WorkerEnv) (p : CompressPayload)
    (fs : List String) : WorkerReply × List String :=
  if !env.loaded then (.err "FFmpeg not loaded", fs)
  else
    let inputFilename := workerInputFilename p
    let outputFilename := workerOutputFilename p
    let fs1 := fsWrite inputFilename fs
    let firstPass : Except String (List String) :=
      if p.settings.twoPass && p.outputFormat ≠ "webm" then
        match env.execFirstPass with
        | .ok _ => .ok (fsWrite twoPassLogMbtree (fsWrite twoPassLog fs1))
        | .error e => .error e
      else .ok fs1
    match firstPass with
    | .error e => (.err e, fs1)
    | .ok fs2 =>
      match env.execMain with
      | .error e => (.err e, fs2)
      | .ok _ =>
        let fs3 := fsWrite outputFilename fs2
        match fsDelete inputFilename fs3 with
        | .error e => (.err e, fs3)
        | .ok fs4 =>
          match fsDelete outputFilename fs4 with
          | .error e => (.err e, fs4)
          | .ok fs5 =>
            let fs6 :=
              match fsDelete twoPassLog fs5 with
              | .error _ => fs5
              | .ok fsa =>
                match fsDelete twoPassLogMbtree fsa with
                | .error _ => fsa
                | .ok fsb => fsb
            (.complete env.outputBytes p.outputFormat, fs6)

/-! ## Orchestrator (compress.ts `processQueue` / `compressVideo` /
`reprocessVideo`) -/

/-- Result of one encode (blob plus wall-clock duration), as returned by
`compressWithWebCodecs` / `compressWithFFmpeg` on success. -/
structure EncodeOutcome where
  blob : Blob
  duration : Rat

/-- The runtime facing the orchestrator: the memoized WebCodecs
capabilities, the probe environment backing `isEncodingSupported`, the
`estimateCompressionTime` call (which reads `navigator.hardwareConcurrency`),
the chosen channel's encode work, and `URL.createObjectURL`. -/
structure OrchEnv where
  caps : WebCodecsCapabilities
  probe : ProbeEnv
  estTime : VideoItem → Int
  encode : EncoderType → VideoItem → Except String EncodeOutcome
  createObjectURL : Blob → String

/-- The `videos.updateItem(id, updates)` — videos.svelte.ts: map the merge over
every item whose `id` matches. -/
def updateItem (items : List VideoItem) (id : String)
    (f : VideoItem → VideoItem) : List VideoItem :=
  items.map (fun item => if item.id = id then f item else item)

/-- The `videos.getItemById(id)` — videos.svelte.ts. -/
def findById (items : List VideoItem) (id : String) : Option VideoItem :=
  items.find? (fun i => i.id = id)

/-- The first `updateItem` merge of `compressVideo(item)` — compress.ts:
the job is marked `processing` with reset progress, the "Analyzing..."
stage and an ETA estimate. -/
def processingUpdate (env : OrchEnv) (item : VideoItem)
    (it : VideoItem) : VideoItem :=
  { it with status := .processing, progress := 0,
            progressStage := some "Analyzing...",
            eta := some (env.estTime item) }

/-- The second `updateItem` merge of `compressVideo(item)`: the stage label
announcing the selected channel. -/
def stageLabelUpdate (env : OrchEnv) (item : VideoItem)
    (it : VideoItem) : VideoItem :=
  let sel := selectEncoder env.caps env.probe item item.outputFormat
  let label := if sel.1 = .webcodecs then "Using Hardware encoder..."
    else "Using Software encoder..."
  { it with progressStage := some label }

/-- The success-path `updateItem` merge of `compressVideo(item)`. -/
def completedUpdate (env : OrchEnv) (item : VideoItem) (r : EncodeOutcome)
    (it : VideoItem) : VideoItem :=
  let sel := selectEncoder env.caps env.probe item item.outputFormat
  { it with status := .completed, progress := 100,
            progressStage := some "Complete",
            compressedSize := some r.blob.size,
            compressedUrl := some (env.createObjectURL r.blob),
            compressedBlob := some r.blob,
            compressionDuration := some r.duration,
            encoderUsed := some sel.1,
            eta := none }

/-- The `catch`-path `updateItem` merge of `compressVideo(item)`: the job
becomes `error` with the exception's message. -/
def errorUpdate (msg : String) (it : VideoItem) : VideoItem :=
  { it with status := .error, error := some msg,
            progressStage := none, eta := none }

/-- The store state after `compressVideo(item)`'s first mutation.  This is
the state at the instant the function first suspends on an `await`. -/
def compressVideoStart (env : OrchEnv) (item : VideoItem)
    (items : List VideoItem) : List VideoItem :=
  updateItem items item.id (processingUpdate env item)

/-- The store state after `compressVideo(item)`'s second mutation. -/
def compressVideoStage2 (env : OrchEnv) (item : VideoItem)
    (items : List VideoItem) : List VideoItem :=
  updateItem (compressVideoStart env item items) item.id
    (stageLabelUpdate env item)

/-- The `compressVideo(item)` — compress.ts.  The whole body runs inside one
`try`; on success the job is completed with its result fields, and the
`catch` turns any rejection into the `error` state with the exception's
message.  The function itself always returns a store state (it never
throws), mirroring that `compressVideo`'s promise never rejects. -/
def compressVideo (env : OrchEnv) (item : VideoItem)
    (items : List VideoItem) : List VideoItem :=
  let sel := selectEncoder env.caps env.probe item item.outputFormat
  let items2 := compressVideoStage2 env item items
  match env.encode sel.1 item with
  | .ok r => updateItem items2 item.id (completedUpdate env item r)
  | .error msg => updateItem items2 item.id (errorUpdate msg)

/-- The drain loop of `processQueue` — compress.ts: shift ids off the queue,
skip ids whose item is gone or no longer `pending`, and run `compressVideo`
sequentially on the rest. -/
def processQueue (env : OrchEnv) (queue : List String)
    (items : List VideoItem) : List VideoItem :=
  match queue with
  | [] => items
  | id :: rest =>
      let items' :=
        match findById items id with
        | some item =>
            if item.status = .pending then compressVideo env item items else items
        | none => items
      processQueue env rest items'

/-- Every store state the drain loop passes through, in order: the state at
each dequeue, and the two intermediate states inside each `compressVideo`
at which the loop is suspended on an `await`. -/
def processQueueStates (env : OrchEnv) (queue : List String)
    (items : List VideoItem) : List (List VideoItem) :=
  match queue with
  | [] => [items]
  | id :: rest =>
      match findById items id with
      | some item =>
          if item.status = .pending then
            items :: compressVideoStart env item items ::
              compressVideoStage2 env item items ::
              processQueueStates env rest (compressVideo env item items)
          else items :: processQueueStates env rest items
      | none => items :: processQueueStates env rest items

/-- The reset performed by `reprocessVideo(id)` — compress.ts — before it
re-runs `compressVideo`. -/
def reprocessVideoReset (id : String) (items : List VideoItem) : List VideoItem :=
  updateItem items id (fun it =>
    { it with status := .pending, progress := 0, progressStage := none,
              compressedSize := none, compressedUrl := none,
              compressedBlob := none, previewUrl := none, eta := none })

/-- The store state at the instant `reprocessVideo(id)`'s directly-invoked
`compressVideo` has performed its first mutation (the job is `processing`).
`reprocessVideo` does not consult the `isProcessing` flag or the queue: it
calls `compressVideo` immediately. -/
def reprocessVideoStart (env : OrchEnv) (id : String)
    (items : List VideoItem) : List VideoItem :=
  match findById items id with
  | none => items
  | some _ =>
      let items' := reprocessVideoReset id items
      match findById items' id with
      | some updated => compressVideoStart env updated items'
      | none => items'

/-- Number of store items currently in the `processing` state. -/
def countProcessing (items : List VideoItem) : Nat :=
  items.countP (fun it => it.status == VideoStatus.processing)

/-! ## Concrete fixtures for witnesses and counterexamples -/

/-- Capabilities reporting full hardware support for every codec at 4K. -/
def fullCaps : WebCodecsCapabilities :=
  { supported := true
    hardwareAcceleration := true
    supportedVideoCodecs := [.avc, .vp9, .av1, .hevc]
    supportedAudioCodecs := [.aac, .opus]
    maxResolution := ⟨3840, 2160⟩ }

/-- A runtime whose probes all resolve to `true`. -/
def probeYes : ProbeEnv :=
  { webCodecsAvailable := true
    canEncodeVideo := fun _ _ _ => .ok true
    canEncodeAudio := fun _ => .ok true
    hardwarePreferred := fun _ => .ok true }

/-- A runtime whose fine-grained encode probes resolve to `false`. -/
def probeNo : ProbeEnv :=
  { webCodecsAvailable := true
    canEncodeVideo := fun _ _ _ => .ok false
    canEncodeAudio := fun _ => .ok false
    hardwarePreferred := fun _ => .ok false }

/-- A runtime where the `avc` probe resolves true, the `hevc` probe
rejects, and the rest resolve false. -/
def probeAvcOnly : ProbeEnv :=
  { webCodecsAvailable := true
    canEncodeVideo := fun c _ _ =>
      match c with
      | .avc => .ok true
      | .hevc => .error "probe rejected"
      | _ => .ok false
    canEncodeAudio := fun _ => .ok true
    hardwarePreferred := fun _ => .ok true }

/-- A sample browser file. -/
def sampleFile : JSFile := ⟨1000000, "clip.mp4"⟩

/-- A sample 720p pending job. -/
def sampleItem : VideoItem :=
  { id := "vid_1", file := sampleFile, name := "clip.mp4",
    originalSize := 1000000, originalUrl := "blob:orig",
    outputFormat := .mp4, status := .pending, progress := 0,
    width := some 1280, height := some 720 }

/-! ## C1 — the pinned-software format always selects the software channel -/

/-- C1: for every job and every capabilities value (and every runtime probe
environment), `selectEncoder` returns the `ffmpeg` channel when the
requested output format is `av1`, even when the capabilities report full
hardware support. -/
theorem selectEncoder_av1_pinned (capabilities : WebCodecsCapabilities)
    (env : ProbeEnv) (video : VideoItem) :
    (selectEncoder capabilities env video .av1).1 = .ffmpeg := rfl

/-! ## C6 — purity of the encoder selector -/

/-- C6 counterexample: the claim says the selector's result is a function of
job dimensions, output format and the capabilities value alone.  It is not:
`selectEncoder` additionally consults the live `isEncodingSupported` probe
(mediabunny `canEncodeVideo`/`canEncodeAudio`), which is not part of the
cached capabilities.  With identical capabilities (full hardware support),
an identical 1280×720 mp4 job, and two runtimes whose fine-grained probe
answers differ, the selector returns different channels. -/
theorem selectEncoder_hidden_probe_input :
    selectEncoder fullCaps probeYes sampleItem .mp4 ≠
      selectEncoder fullCaps probeNo sampleItem .mp4 := by decide

/-- C6 (amended): the selector is pure and deterministic given its actual
inputs: the capabilities value, the runtime's configuration-support probe,
the requested output format, and — among all job fields — only the target
width and height.  Two jobs agreeing on width and height select
identically. -/
theorem selectEncoder_deterministic (caps : WebCodecsCapabilities)
    (env : ProbeEnv) (fmt : OutputFormat) (v1 v2 : VideoItem)
    (hw : v1.width = v2.width) (hh : v1.height = v2.height) :
    selectEncoder caps env v1 fmt = selectEncoder caps env v2 fmt := by
  simp only [selectEncoder, hw, hh]

/-- C6 witness: two 720p jobs differing in every other field select the same
channel and reason. -/
theorem selectEncoder_deterministic_witness :
    selectEncoder fullCaps probeYes sampleItem .mp4 =
      selectEncoder fullCaps probeYes
        { sampleItem with id := "vid_2", name := "other.mov",
                          originalSize := 7, status := .completed } .mp4 :=
  selectEncoder_deterministic fullCaps probeYes .mp4 _ _ rfl rfl

/-! ## C8 — output-format changes propagate to exactly the pending jobs -/

/-- C8: when `updateSettings` receives a new output format, the resulting
item list is the old one with exactly the `pending` items' `outputFormat`
field overwritten; every item in another state (`completed`, `processing`,
`error`) is returned unchanged with all of its fields intact.  Stated
positionally: slot `i` of the result is slot `i` of the input, rewritten
only when pending. -/
theorem updateSettings_propagates_to_pending (fmt : OutputFormat)
    (items : List VideoItem) (i : Nat) :
    (updateSettingsItems (some fmt) items)[i]? =
      (items[i]?).map (fun it =>
        if it.status = .pending then { it with outputFormat := fmt } else it) := by
  simp [updateSettingsItems]

/-! ## C10 — reorderItems permutes the queue -/

/-- Inserting at an index within bounds is a permutation of consing. -/
theorem perm_insertIdx (x : α) :
    ∀ (n : Nat) (l : List α), n ≤ l.length → (l.insertIdx n x).Perm (x :: l)
  | 0, l, _ => by simp [List.insertIdx_zero]
  | n + 1, [], h => by simp at h
  | n + 1, a :: l, h => by
      rw [List.insertIdx_succ_cons]
      exact ((perm_insertIdx x n l (by simpa using h)).cons a).trans
        (List.Perm.swap x a l)

/-- A list is a permutation of its `i`-th element consed onto the removal. -/
theorem perm_getElem_eraseIdx :
    ∀ (l : List α) (i : Nat) (h : i < l.length), l.Perm (l[i] :: l.eraseIdx i)
  | _ :: _, 0, _ => by simp
  | a :: l, i + 1, h => by
      have hi : i < l.length := by simpa using h
      have ih := perm_getElem_eraseIdx l i hi
      simp only [List.getElem_cons_succ, List.eraseIdx_cons_succ]
      exact (ih.cons a).trans (List.Perm.swap (l[i]) a _)

/-- C10: for in-range indices, `reorderItems` produces a permutation of the
previous queue — same length, every job record preserved with all fields
unmodified, none lost or duplicated. -/
theorem reorderItems_perm (items : List VideoItem) (fromIndex toIndex : Nat)
    (hf : fromIndex < items.length) (ht : toIndex < items.length) :
    (reorderItems fromIndex toIndex items).Perm items := by
  have hx : items[fromIndex]? = some items[fromIndex] :=
    List.getElem?_eq_getElem hf
  simp only [reorderItems, hx]
  exact (perm_insertIdx items[fromIndex] _ (items.eraseIdx fromIndex)
      (min_le_right _ _)).trans (perm_getElem_eraseIdx items fromIndex hf).symm

/-- C10 witness: moving the head of a concrete three-job queue to the back
yields a permutation. -/
theorem reorderItems_perm_witness :
    (0 : Nat) < 3 ∧ (2 : Nat) < 3 ∧
      (reorderItems 0 2 [sampleItem,
        { sampleItem with id := "vid_2" },
        { sampleItem with id := "vid_3" }]).Perm
        [sampleItem,
          { sampleItem with id := "vid_2" },
          { sampleItem with id := "vid_3" }] :=
  ⟨by decide, by decide,
    reorderItems_perm _ 0 2 (by decide) (by decide)⟩

/-! ## C4 — trimmed duration drives estimation and frame counts -/

/-- C4: for a job with both trim bounds set (and the data-model validity
invariant `0 ≤ trimStart < trimEnd ≤ duration`), the effective duration
used for size/ETA estimation is exactly `trimEnd - trimStart`, strictly
below the full source duration whenever `trimStart > 0` or
`trimEnd < duration`; and the hardware path's reported `totalFrames` is
computed from this trimmed duration (ceil of trimmed duration × frame
rate), not from the full source duration. -/
theorem trim_effective_duration (v : VideoItem) (ts te d fps : Rat)
    (hts : v.trimStart = some ts) (hte : v.trimEnd = some te)
    (hd : v.duration = some d)
    (h0 : 0 ≤ ts) (hlt : ts < te) (hle : te ≤ d) :
    getEffectiveDuration v = te - ts ∧
      ((0 < ts ∨ te < d) → getEffectiveDuration v < d) ∧
      webCodecsTotalFrames true d fps (some ts) (some te) = ⌈(te - ts) * fps⌉ := by
  have h1 : getEffectiveDuration v = te - ts := by
    simp only [getEffectiveDuration, hts, hte, hd, Option.getD_some]
    rw [if_pos (Or.inl (by simp))]
    exact max_eq_right (by linarith)
  refine ⟨h1, fun h => ?_, ?_⟩
  · rw [h1]
    rcases h with h | h <;> linarith
  · simp only [webCodecsTotalFrames, Option.getD_some]
    split_ifs with hc <;> simp_all

/-- The Scenario D job: `trimStart=10`, `trimEnd=15` on a 120-second source. -/
def trimSampleItem : VideoItem :=
  { sampleItem with duration := some 120, trimStart := some 10, trimEnd := some 15 }

/-- C4 witness (Scenario D): the effective duration is 5 seconds and, at a
30 fps estimate, the hardware path reports 150 total frames — proportional
to the 5-second trim window, not the 120-second source. -/
theorem trim_effective_duration_witness :
    getEffectiveDuration trimSampleItem = 5 ∧
      getEffectiveDuration trimSampleItem < 120 ∧
      webCodecsTotalFrames true 120 30 (some 10) (some 15) = 150 := by
  have h := trim_effective_duration trimSampleItem 10 15 120 30 rfl rfl rfl
    (by norm_num) (by norm_num) (by norm_num)
  refine ⟨h.1.trans (by norm_num), h.2.1 (Or.inl (by norm_num)), h.2.2.trans ?_⟩
  norm_num

/-! ## C7 — overall support iff some codec probe succeeded; probes are
fault-tolerant -/

/-- C7: the probe's overall `supported` flag is true iff the WebCodecs API
is present and at least one candidate video codec probe resolved to true;
a candidate whose `canEncodeVideo` query rejects is treated as unsupported
(it never enters the supported set) and the rejection does not propagate —
`getWebCodecsCapabilities` is a total function of the probe environment. -/
theorem capabilities_supported_iff (env : ProbeEnv) :
    ((getWebCodecsCapabilities env).supported = true ↔
        env.webCodecsAvailable = true ∧
          ∃ c ∈ videoCodecTests, probeVideoCodec env c = true) ∧
      ∀ c e, env.canEncodeVideo c referenceResolution .medium = .error e →
        c ∉ (getWebCodecsCapabilities env).supportedVideoCodecs := by
  cases henv : env.webCodecsAvailable with
  | false =>
      constructor
      · simp [getWebCodecsCapabilities, henv]
      · intro c e _
        simp [getWebCodecsCapabilities, henv]
  | true =>
      constructor
      · simp [getWebCodecsCapabilities, henv, List.isEmpty_iff,
          List.filter_eq_nil_iff]
      · intro c e he hmem
        simp only [getWebCodecsCapabilities, henv, Bool.not_true,
          Bool.false_eq_true, if_false, List.mem_filter] at hmem
        have := hmem.2
        rw [probeVideoCodec, he] at this
        exact absurd this (by simp)

/-- C7 witness: in a runtime where the `avc` probe resolves true and the
`hevc` probe rejects, the capabilities report overall support and exclude
`hevc`. -/
theorem capabilities_supported_iff_witness :
    (getWebCodecsCapabilities probeAvcOnly).supported = true ∧
      WebCodecsVideoCodec.hevc ∉
        (getWebCodecsCapabilities probeAvcOnly).supportedVideoCodecs :=
  ⟨(capabilities_supported_iff probeAvcOnly).1.mpr
      ⟨rfl, .avc, by decide, rfl⟩,
    (capabilities_supported_iff probeAvcOnly).2 .hevc "probe rejected" rfl⟩

/-! ## C9 — defensive clamping of trim-derived durations -/

/-- Plain settings used by the worker-side counterexamples. -/
def plainSettings : FFmpegSettings :=
  { crf := 23, targetBitrate := "1000k", preset := "medium",
    resolution := some "original", audioBitrate := "128k",
    audioCodec := "aac", stripMetadata := false, twoPass := false }

/-- C9 counterexample: the output-duration bound handed to the software
encoder is NOT clamped.  For an invalid trim window `trimStart = 15`,
`trimEnd = 10`, `buildFFmpegArgs` emits `-t` with the negative value `-5`
(the source pushes `trimEnd - (trimStart || 0)` unconditionally), refuting
the claim that every trim-derived duration is non-negative. -/
theorem buildFFmpegArgs_negative_t :
    [FFToken.str "-t", FFToken.num (10 - 15)] <:+:
        buildFFmpegArgs "input_v.mp4" "output_v.mp4" "mp4" plainSettings
          (some 15) (some 10) ∧
      (10 - 15 : Rat) < 0 := by
  constructor
  · simp [buildFFmpegArgs, show (15 : Rat) > 0 by norm_num]
    exact List.infix_cons (List.infix_cons (List.infix_cons (List.infix_cons
      (List.prefix_append _ _).isInfix)))
  · norm_num

/-- C9 (amended): of the two trim-derived durations, only the estimation
side is defensively clamped: `getEffectiveDuration` is non-negative for
every job (`Math.max(0, ...)`), while `buildFFmpegArgs` always emits the
unclamped `-t` value `trimEnd - (trimStart || 0)`, which is negative
whenever `trimStart > trimEnd`. -/
theorem trim_durations_clamping (v : VideoItem) (tsv tev : Rat)
    (hts : v.trimStart = some tsv) (hte : v.trimEnd = some tev)
    (input output format : String) (s : FFmpegSettings) :
    0 ≤ getEffectiveDuration v ∧
      [FFToken.str "-t", FFToken.num (tev - tsv)] <:+:
        buildFFmpegArgs input output format s (some tsv) (some tev) := by
  constructor
  · simp only [getEffectiveDuration, hts, hte, Option.getD_some]
    rw [if_pos (Or.inl (by simp))]
    exact le_max_left 0 _
  · by_cases htsv : tsv > 0
    · simp [buildFFmpegArgs, htsv]
      exact List.infix_cons (List.infix_cons (List.infix_cons (List.infix_cons
        (List.prefix_append _ _).isInfix)))
    · simp [buildFFmpegArgs, htsv]
      exact List.infix_cons (List.infix_cons (List.prefix_append _ _).isInfix)

/-- C9 witness: for the inverted trim window `trimStart = 15 > trimEnd = 10`
the estimation-side duration is clamped to 0 while the `-t` bound handed to
the software encoder is the negative `-5`. -/
theorem trim_durations_clamping_witness :
    0 ≤ getEffectiveDuration
        { sampleItem with duration := some 120,
                          trimStart := some 15, trimEnd := some 10 } ∧
      [FFToken.str "-t", FFToken.num (10 - 15)] <:+:
        buildFFmpegArgs "input_v.mp4" "output_v.mp4" "mp4" plainSettings
          (some 15) (some 10) :=
  trim_durations_clamping _ 15 10 rfl rfl "input_v.mp4" "output_v.mp4" "mp4"
    plainSettings

/-! ## Store-lookup lemmas shared by the orchestrator proofs -/

/-- An item found by id bears that id. -/
theorem findById_eq_id {items : List VideoItem} {id : String} {it : VideoItem}
    (h : findById items id = some it) : it.id = id := by
  have := List.find?_some h
  simpa using this

/-- Looking up `j` after an id-preserving update of `id`: the lookup result
is mapped through the pointwise rewrite. -/
theorem findById_updateItem (items : List VideoItem) (id j : String)
    (f : VideoItem → VideoItem) (hf : ∀ it, (f it).id = it.id) :
    findById (updateItem items id f) j =
      (findById items j).map (fun it => if it.id = id then f it else it) := by
  induction items with
  | nil => rfl
  | cons a l ih =>
      simp only [updateItem, List.map_cons, findById] at *
      by_cases ha : a.id = j
      · have ha2 : (if a.id = id then f a else a).id = j := by
          split
          next => rw [hf a]; exact ha
          next => exact ha
        rw [List.find?_cons_of_pos _ (by simpa using ha2),
          List.find?_cons_of_pos _ (by simpa using ha)]
        rfl
      · have ha2 : ¬ (if a.id = id then f a else a).id = j := by
          split
          next => rw [hf a]; exact ha
          next => exact ha
        rw [List.find?_cons_of_neg _ (by simpa using ha2),
          List.find?_cons_of_neg _ (by simpa using ha)]
        exact ih

/-- Updates addressed to another id leave a lookup unchanged. -/
theorem findById_updateItem_ne {items : List VideoItem} {id j : String}
    {f : VideoItem → VideoItem} (hf : ∀ it, (f it).id = it.id) (hj : j ≠ id) :
    findById (updateItem items id f) j = findById items j := by
  rw [findById_updateItem items id j f hf]
  cases h : findById items j with
  | none => rfl
  | some it =>
      have : it.id = j := findById_eq_id h
      simp [this, hj]

/-- Updates addressed to the found id rewrite exactly the found item. -/
theorem findById_updateItem_self {items : List VideoItem} {id : String}
    {f : VideoItem → VideoItem} (hf : ∀ it, (f it).id = it.id) :
    findById (updateItem items id f) id = (findById items id).map f := by
  rw [findById_updateItem items id id f hf]
  cases h : findById items id with
  | none => rfl
  | some it =>
      have : it.id = id := findById_eq_id h
      simp [this]

/-! ## Per-item effect of `compressVideo` -/

/-- The pointwise effect of one `compressVideo(item)` run on the matching
store record: marked processing with the stage labels, then completed with
the result fields on success, or `error` with the exception's message on
failure. -/
def compressVideoTransform (env : OrchEnv) (item : VideoItem)
    (it : VideoItem) : VideoItem :=
  match env.encode (selectEncoder env.caps env.probe item item.outputFormat).1
      item with
  | .ok r =>
      completedUpdate env item r
        (stageLabelUpdate env item (processingUpdate env item it))
  | .error msg =>
      errorUpdate msg (stageLabelUpdate env item (processingUpdate env item it))

/-- All four merges preserve the item's id. -/
theorem processingUpdate_id (env : OrchEnv) (item : VideoItem) :
    ∀ it, (processingUpdate env item it).id = it.id := fun _ => rfl

/-- The stage-label merge preserves the item's id. -/
theorem stageLabelUpdate_id (env : OrchEnv) (item : VideoItem) :
    ∀ it, (stageLabelUpdate env item it).id = it.id := fun _ => rfl

/-- The success merge preserves the item's id. -/
theorem completedUpdate_id (env : OrchEnv) (item : VideoItem)
    (r : EncodeOutcome) :
    ∀ it, (completedUpdate env item r it).id = it.id := fun _ => rfl

/-- The failure merge preserves the item's id. -/
theorem errorUpdate_id (msg : String) :
    ∀ it, (errorUpdate msg it).id = it.id := fun _ => rfl

/-- Lemma: `compressVideo` leaves lookups of other ids untouched. -/
theorem compressVideo_findById_ne (env : OrchEnv) (item : VideoItem)
    (items : List VideoItem) {j : String} (hj : j ≠ item.id) :
    findById (compressVideo env item items) j = findById items j := by
  cases henc : env.encode
      (selectEncoder env.caps env.probe item item.outputFormat).1 item with
  | ok r =>
      simp only [compressVideo, compressVideoStage2, compressVideoStart, henc]
      rw [findById_updateItem_ne (completedUpdate_id env item r) hj,
        findById_updateItem_ne (stageLabelUpdate_id env item) hj,
        findById_updateItem_ne (processingUpdate_id env item) hj]
  | error msg =>
      simp only [compressVideo, compressVideoStage2, compressVideoStart, henc]
      rw [findById_updateItem_ne (errorUpdate_id msg) hj,
        findById_updateItem_ne (stageLabelUpdate_id env item) hj,
        findById_updateItem_ne (processingUpdate_id env item) hj]

/-- Looking up the processed item after `compressVideo` yields its
transform. -/
theorem compressVideo_findById_self (env : OrchEnv) (item : VideoItem)
    (items : List VideoItem) :
    findById (compressVideo env item items) item.id =
      (findById items item.id).map (compressVideoTransform env item) := by
  cases henc : env.encode
      (selectEncoder env.caps env.probe item item.outputFormat).1 item with
  | ok r =>
      simp only [compressVideo, compressVideoStage2, compressVideoStart, henc]
      rw [findById_updateItem_self (completedUpdate_id env item r),
        findById_updateItem_self (stageLabelUpdate_id env item),
        findById_updateItem_self (processingUpdate_id env item)]
      cases findById items item.id with
      | none => rfl
      | some it => simp [compressVideoTransform, henc]
  | error msg =>
      simp only [compressVideo, compressVideoStage2, compressVideoStart, henc]
      rw [findById_updateItem_self (errorUpdate_id msg),
        findById_updateItem_self (stageLabelUpdate_id env item),
        findById_updateItem_self (processingUpdate_id env item)]
      cases findById items item.id with
      | none => rfl
      | some it => simp [compressVideoTransform, henc]

/-- After its `compressVideo` run a job is never still `pending`. -/
theorem compressVideoTransform_not_pending (env : OrchEnv)
    (item it : VideoItem) :
    (compressVideoTransform env item it).status ≠ .pending := by
  simp only [compressVideoTransform]
  cases env.encode (selectEncoder env.caps env.probe item item.outputFormat).1
      item <;> simp [completedUpdate, errorUpdate]

/-- Items that are no longer `pending` pass through the whole drain loop
untouched. -/
theorem processQueue_preserves (env : OrchEnv) (queue : List String)
    {items : List VideoItem} {id : String} {it : VideoItem}
    (h : findById items id = some it) (hst : it.status ≠ .pending) :
    findById (processQueue env queue items) id = some it := by
  induction queue generalizing items with
  | nil => exact h
  | cons q rest ih =>
      simp only [processQueue]
      cases hfq : findById items q with
      | none => exact ih h
      | some itq =>
          by_cases hpq : itq.status = .pending
          · simp only [hpq, if_true]
            have hne : id ≠ itq.id := by
              rw [findById_eq_id hfq]
              intro he
              rw [he, hfq] at h
              cases h
              exact hst hpq
            exact ih (by rw [compressVideo_findById_ne env itq items hne]; exact h)
          · simp only [hpq, if_false]
            exact ih h

/-! ## C2 — per-job failure isolation in the drain loop -/

/-- C2: the drain loop is total (it always returns a store state — the
orchestrator never throws to its caller), and for every queued job that is
`pending` at dequeue time: if its encode rejects, the job ends in `error`
carrying exactly the exception's message; if its encode succeeds, the job
ends `completed` — in either case independently of the other queued jobs,
so one job's failure never halts the queue.  The final conjunct shows every
processed job first transitions through `processing`
(`compressVideo`'s first mutation). -/
theorem processQueue_error_isolation (env : OrchEnv) (queue : List String)
    (items : List VideoItem) (id : String) (it : VideoItem)
    (hmem : id ∈ queue) (h : findById items id = some it)
    (hp : it.status = .pending) :
    (∃ fin, findById (processQueue env queue items) id = some fin ∧
      (∀ msg,
        env.encode (selectEncoder env.caps env.probe it it.outputFormat).1 it =
            .error msg →
          fin.status = .error ∧ fin.error = some msg) ∧
      (∀ r,
        env.encode (selectEncoder env.caps env.probe it it.outputFormat).1 it =
            .ok r →
          fin.status = .completed ∧ fin.progress = 100)) ∧
    ∀ (env2 : OrchEnv) (item2 it2 : VideoItem) (items2 : List VideoItem),
      findById items2 item2.id = some it2 →
      findById (compressVideoStart env2 item2 items2) item2.id =
        some (processingUpdate env2 item2 it2) := by
  refine ⟨?_, ?_⟩
  · induction queue generalizing items with
    | nil => cases hmem
    | cons q rest ih =>
        by_cases hq : q = id
        · subst hq
          simp only [processQueue, h, hp, if_true]
          have hid : it.id = q := findById_eq_id h
          have hfind : findById (compressVideo env it items) q =
              some (compressVideoTransform env it it) := by
            rw [← hid, compressVideo_findById_self, hid, h]
            rfl
          have hfin := processQueue_preserves env rest hfind
            (compressVideoTransform_not_pending env it it)
          refine ⟨compressVideoTransform env it it, hfin, ?_, ?_⟩
          · intro msg henc
            constructor <;>
              simp [compressVideoTransform, henc, errorUpdate]
          · intro r henc
            constructor <;>
              simp [compressVideoTransform, henc, completedUpdate]
        · have hmem2 : id ∈ rest := by
            rcases List.mem_cons.1 hmem with h1 | h2
            · exact absurd h1.symm hq
            · exact h2
          simp only [processQueue]
          cases hfq : findById items q with
          | none => exact ih items hmem2 h
          | some itq =>
              by_cases hpq : itq.status = .pending
              · simp only [hpq, if_true]
                have hne : id ≠ itq.id := by
                  rw [findById_eq_id hfq]
                  exact fun hh => hq hh.symm
                exact ih (compressVideo env itq items) hmem2
                  (by rw [compressVideo_findById_ne env itq items hne]; exact h)
              · simp only [hpq, if_false]
                exact ih items hmem2 h
  · intro env2 item2 it2 items2 h2
    simp only [compressVideoStart]
    rw [findById_updateItem_self (processingUpdate_id env2 item2), h2]
    rfl

/-- Queued pending job "a". -/
def itemA : VideoItem := { sampleItem with id := "a" }

/-- Queued pending job "b". -/
def itemB : VideoItem := { sampleItem with id := "b" }

/-- Scenario E runtime: job "a"'s encode throws "boom", every other encode
succeeds. -/
def scenarioEnv : OrchEnv :=
  { caps := fullCaps
    probe := probeYes
    estTime := fun _ => 0
    encode := fun _ item =>
      if item.id = "a" then .error "boom" else .ok ⟨⟨500⟩, 1⟩
    createObjectURL := fun _ => "blob:out" }

/-- C2 witness (Scenario E): two queued jobs, the first encode throws —
job "a" ends in `error` with the captured message, job "b" still completes
normally; the queue does not halt. -/
theorem processQueue_error_isolation_witness :
    ∃ finA finB,
      findById (processQueue scenarioEnv ["a", "b"] [itemA, itemB]) "a" =
          some finA ∧
        finA.status = .error ∧ finA.error = some "boom" ∧
        findById (processQueue scenarioEnv ["a", "b"] [itemA, itemB]) "b" =
          some finB ∧
        finB.status = .completed := by
  obtain ⟨⟨finA, hA, hAerr, _⟩, _⟩ := processQueue_error_isolation scenarioEnv
    ["a", "b"] [itemA, itemB] "a" itemA (by decide) rfl rfl
  obtain ⟨⟨finB, hB, _, hBok⟩, _⟩ := processQueue_error_isolation scenarioEnv
    ["a", "b"] [itemA, itemB] "b" itemB (by decide) rfl rfl
  obtain ⟨hA1, hA2⟩ := hAerr "boom" rfl
  obtain ⟨hB1, _⟩ := hBok ⟨⟨500⟩, 1⟩ rfl
  exact ⟨finA, finB, hA, hA1, hA2, hB, hB1⟩

/-! ## C3 — at most one `processing` job -/

/-- Members of an updated store come from members of the old store. -/
theorem mem_updateItem {l : List VideoItem} {id : String}
    {f : VideoItem → VideoItem} {it : VideoItem} (h : it ∈ updateItem l id f) :
    ∃ it0 ∈ l, (if it0.id = id then f it0 else it0) = it := by
  simpa [updateItem, List.mem_map] using h

/-- After `compressVideo`'s first mutation, any processing member bears the
processed job's id (given none was processing before). -/
theorem processing_id_compressVideoStart (env : OrchEnv) (item : VideoItem)
    {l : List VideoItem} (h0 : ∀ x ∈ l, x.status ≠ .processing) :
    ∀ it ∈ compressVideoStart env item l,
      it.status = .processing → it.id = item.id := by
  intro it hmem hproc
  rw [compressVideoStart] at hmem
  obtain ⟨it0, hmem0, heq⟩ := mem_updateItem hmem
  by_cases hid : it0.id = item.id
  · rw [if_pos hid] at heq
    rw [← heq]
    exact hid
  · rw [if_neg hid] at heq
    rw [← heq] at hproc
    exact absurd hproc (h0 it0 hmem0)

/-- The same after the stage-label mutation. -/
theorem processing_id_compressVideoStage2 (env : OrchEnv) (item : VideoItem)
    {l : List VideoItem} (h0 : ∀ x ∈ l, x.status ≠ .processing) :
    ∀ it ∈ compressVideoStage2 env item l,
      it.status = .processing → it.id = item.id := by
  intro it hmem hproc
  rw [compressVideoStage2] at hmem
  obtain ⟨it0, hmem0, heq⟩ := mem_updateItem hmem
  by_cases hid : it0.id = item.id
  · rw [if_pos hid] at heq
    rw [← heq]
    exact hid
  · rw [if_neg hid] at heq
    rw [← heq] at hproc
    rw [← heq]
    exact processing_id_compressVideoStart env item h0 it0 hmem0 hproc

/-- A finished `compressVideo` run leaves no member processing (given none
was processing before it started). -/
theorem compressVideo_not_processing (env : OrchEnv) (item : VideoItem)
    {l : List VideoItem} (h0 : ∀ x ∈ l, x.status ≠ .processing) :
    ∀ it ∈ compressVideo env item l, it.status ≠ .processing := by
  intro it hmem
  cases henc : env.encode
      (selectEncoder env.caps env.probe item item.outputFormat).1 item with
  | ok r =>
      simp only [compressVideo, henc] at hmem
      obtain ⟨it0, hmem0, heq⟩ := mem_updateItem hmem
      by_cases hid : it0.id = item.id
      · rw [if_pos hid] at heq
        rw [← heq]
        simp [completedUpdate]
      · rw [if_neg hid] at heq
        rw [← heq]
        intro hproc
        exact hid (processing_id_compressVideoStage2 env item h0 it0 hmem0 hproc)
  | error msg =>
      simp only [compressVideo, henc] at hmem
      obtain ⟨it0, hmem0, heq⟩ := mem_updateItem hmem
      by_cases hid : it0.id = item.id
      · rw [if_pos hid] at heq
        rw [← heq]
        simp [errorUpdate]
      · rw [if_neg hid] at heq
        rw [← heq]
        intro hproc
        exact hid (processing_id_compressVideoStage2 env item h0 it0 hmem0 hproc)

/-- No processing member means a zero processing count. -/
theorem countProcessing_eq_zero {l : List VideoItem}
    (h0 : ∀ x ∈ l, x.status ≠ .processing) : countProcessing l = 0 :=
  List.countP_eq_zero.2 (by intro a ha; simpa using h0 a ha)

/-- Under distinct ids, at most one member bears a given id. -/
theorem countP_id_le_one {l : List VideoItem} {x : String}
    (hnodup : (l.map VideoItem.id).Nodup) :
    l.countP (fun it => it.id == x) ≤ 1 := by
  induction l with
  | nil => simp
  | cons a l ih =>
      simp only [List.map_cons, List.nodup_cons] at hnodup
      rw [List.countP_cons]
      by_cases hax : a.id = x
      · have hz : l.countP (fun it => it.id == x) = 0 :=
          List.countP_eq_zero.2 (by
            intro b hb
            simp only [beq_iff_eq]
            intro hbx
            exact hnodup.1 (List.mem_map.2 ⟨b, hb, by rw [hbx, hax]⟩))
        simp [hax, hz]
      · simp only [beq_iff_eq, hax, if_false, Nat.add_zero]
        exact ih hnodup.2

/-- If every processing member bears one fixed id and ids are distinct,
at most one member is processing. -/
theorem countProcessing_le_one {l : List VideoItem} {x : String}
    (hnodup : (l.map VideoItem.id).Nodup)
    (h : ∀ it ∈ l, it.status = .processing → it.id = x) :
    countProcessing l ≤ 1 :=
  (List.countP_mono_left (by
    intro a ha hp
    simpa using h a ha (by simpa using hp))).trans (countP_id_le_one hnodup)

/-- Id-preserving updates keep the id multiset of the store. -/
theorem map_id_updateItem (l : List VideoItem) (id : String)
    (f : VideoItem → VideoItem) (hf : ∀ it, (f it).id = it.id) :
    (updateItem l id f).map VideoItem.id = l.map VideoItem.id := by
  simp only [updateItem, List.map_map]
  apply List.map_congr_left
  intro a _
  by_cases h : a.id = id <;> simp [h, hf]

/-- Lemma: `compressVideo` keeps the id list of the store. -/
theorem map_id_compressVideo (env : OrchEnv) (item : VideoItem)
    (l : List VideoItem) :
    (compressVideo env item l).map VideoItem.id = l.map VideoItem.id := by
  cases henc : env.encode
      (selectEncoder env.caps env.probe item item.outputFormat).1 item with
  | ok r =>
      simp only [compressVideo, compressVideoStage2, compressVideoStart, henc]
      rw [map_id_updateItem _ _ _ (completedUpdate_id env item r),
        map_id_updateItem _ _ _ (stageLabelUpdate_id env item),
        map_id_updateItem _ _ _ (processingUpdate_id env item)]
  | error msg =>
      simp only [compressVideo, compressVideoStage2, compressVideoStart, henc]
      rw [map_id_updateItem _ _ _ (errorUpdate_id msg),
        map_id_updateItem _ _ _ (stageLabelUpdate_id env item),
        map_id_updateItem _ _ _ (processingUpdate_id env item)]

/-- C3 (amended): within one drain of the queue
(`processVideos`/`processQueue`), starting from a store with distinct ids
and no processing job, every store state the loop passes through — the two
`await`-suspension states inside each `compressVideo` included — has at most
one `processing` job.  (The system-wide claim fails when `reprocessVideo`
or `reprocessAllVideos` runs concurrently with a drain: they invoke
`compressVideo` directly without consulting the `isProcessing` flag; see
the counterexample.) -/
theorem processQueue_single_processing (env : OrchEnv) (queue : List String)
    (items : List VideoItem)
    (hnodup : (items.map VideoItem.id).Nodup)
    (h0 : ∀ it ∈ items, it.status ≠ .processing) :
    ∀ s ∈ processQueueStates env queue items, countProcessing s ≤ 1 := by
  induction queue generalizing items with
  | nil =>
      intro s hs
      simp only [processQueueStates, List.mem_singleton] at hs
      subst hs
      simp [countProcessing_eq_zero h0]
  | cons q rest ih =>
      intro s hs
      simp only [processQueueStates] at hs
      cases hfq : findById items q with
      | none =>
          simp only [hfq] at hs
          rcases List.mem_cons.1 hs with rfl | hs2
          · simp [countProcessing_eq_zero h0]
          · exact ih items hnodup h0 s hs2
      | some itq =>
          simp only [hfq] at hs
          by_cases hpq : itq.status = .pending
          · rw [if_pos hpq] at hs
            simp only [List.mem_cons] at hs
            rcases hs with rfl | rfl | rfl | hs3
            · simp [countProcessing_eq_zero h0]
            · refine countProcessing_le_one ?_
                (processing_id_compressVideoStart env itq h0)
              rw [compressVideoStart,
                map_id_updateItem _ _ _ (processingUpdate_id env itq)]
              exact hnodup
            · refine countProcessing_le_one ?_
                (processing_id_compressVideoStage2 env itq h0)
              rw [compressVideoStage2, compressVideoStart,
                map_id_updateItem _ _ _ (stageLabelUpdate_id env itq),
                map_id_updateItem _ _ _ (processingUpdate_id env itq)]
              exact hnodup
            · refine ih (compressVideo env itq items) ?_ ?_ s hs3
              · rw [map_id_compressVideo]
                exact hnodup
              · exact compressVideo_not_processing env itq h0
          · rw [if_neg hpq] at hs
            rcases List.mem_cons.1 hs with rfl | hs2
            · simp [countProcessing_eq_zero h0]
            · exact ih items hnodup h0 s hs2

/-- A runtime whose encodes never resolve within the observed window. -/
def idleEnv : OrchEnv :=
  { caps := fullCaps
    probe := probeYes
    estTime := fun _ => 0
    encode := fun _ _ => .error "unused"
    createObjectURL := fun _ => "blob:url" }

/-- A completed job "b" eligible for re-encoding. -/
def itemBdone : VideoItem := { sampleItem with id := "b", status := .completed }

/-- C3 counterexample: the claim fails across entry points.
`compressVideoStart idleEnv itemA [...]` is the store state at the instant
the drain loop has marked job "a" `processing` and is suspended awaiting
its encode; `reprocessVideo("b")`, invoked by the user at that instant,
resets "b" and immediately calls `compressVideo`, whose first mutation
makes "b" `processing` as well — two jobs are `processing` at once, because
`reprocessVideo` bypasses the queue and the `isProcessing` flag. -/
theorem two_processing_across_entry_points :
    countProcessing
        (reprocessVideoStart idleEnv "b"
          (compressVideoStart idleEnv itemA [itemA, itemBdone])) = 2 := by
  decide

/-- C3 witness: during a plain one-job drain the intermediate state with
job "a" processing satisfies the at-most-one bound. -/
theorem processQueue_single_processing_witness :
    countProcessing (compressVideoStart idleEnv itemA [itemA, itemBdone]) ≤ 1 :=
  processQueue_single_processing idleEnv ["a"] [itemA, itemBdone]
    (by decide) (by decide) _ (by decide)

/-! ## C5 — virtual working files of the software channel -/

/-- C5 (amended): on the success path the worker removes every virtual
working file it created — the written input, the produced output, and (for
two-pass runs) both pass-log artifacts — restoring the virtual FS exactly,
for any job whose working filenames are fresh.  (On the failure path
nothing is cleaned up; see the counterexample.) -/
theorem worker_cleanup_on_success (env : WorkerEnv) (p : CompressPayload)
    (fs : List String)
    (hl : env.loaded = true)
    (h1 : env.execFirstPass = .ok ())
    (h2 : env.execMain = .ok ())
    (hin : workerInputFilename p ∉ fs)
    (hout : workerOutputFilename p ∉ fs)
    (hlog : twoPassLog ∉ fs)
    (hmb : twoPassLogMbtree ∉ fs)
    (hio : workerInputFilename p ≠ workerOutputFilename p)
    (hil : workerInputFilename p ≠ twoPassLog)
    (him : workerInputFilename p ≠ twoPassLogMbtree)
    (hol : workerOutputFilename p ≠ twoPassLog)
    (hom : workerOutputFilename p ≠ twoPassLogMbtree) :
    workerCompressVideo env p fs =
      (.complete env.outputBytes p.outputFormat, fs) := by
  have hlm : twoPassLog ≠ twoPassLogMbtree := by decide
  simp only [workerCompressVideo, hl, Bool.not_true, Bool.false_eq_true,
    if_false]
  split_ifs with htp
  · rw [h1, h2]
    simp [fsWrite, fsDelete, List.mem_cons, hin, hout, hlog, hmb,
      hio, hil, him, hol, hom, Ne.symm hio, Ne.symm hil, Ne.symm him,
      Ne.symm hol, Ne.symm hom, hlm, Ne.symm hlm, List.erase_cons]
  · rw [h2]
    simp [fsWrite, fsDelete, List.mem_cons, hin, hout, hlog, hmb,
      hio, hil, him, hol, hom, Ne.symm hio, Ne.symm hil, Ne.symm him,
      Ne.symm hol, Ne.symm hom, hlm, Ne.symm hlm, List.erase_cons]

/-- A two-pass mp4 compression request. -/
def twoPassPayload : CompressPayload :=
  { id := "job1", fileName := "movie.mp4", outputFormat := "mp4",
    settings := { plainSettings with twoPass := true } }

/-- A runtime where the first (analysis) pass succeeds and the second
(encoding) pass rejects. -/
def failEnv : WorkerEnv :=
  { loaded := true, execFirstPass := .ok (),
    execMain := .error "encode failed", outputBytes := 0 }

/-- A runtime where both passes succeed. -/
def okEnv : WorkerEnv :=
  { loaded := true, execFirstPass := .ok (), execMain := .ok (),
    outputBytes := 4200 }

/-- C5 counterexample: on the failure path nothing is removed.  With a
two-pass job whose second pass rejects, the worker posts the error and
leaves both the written input file and the first pass's analysis artifact
in the virtual FS — the `catch` block of `compressVideo` performs no
cleanup, refuting the claim that working files are removed on the failure
path (and that pass logs are deleted regardless of the second pass's
outcome). -/
theorem worker_leaves_files_on_failure :
    (workerCompressVideo failEnv twoPassPayload []).1 = .err "encode failed" ∧
      "input_job1.mp4" ∈ (workerCompressVideo failEnv twoPassPayload []).2 ∧
      twoPassLog ∈ (workerCompressVideo failEnv twoPassPayload []).2 := by
  decide

/-- C5 witness: a successful two-pass job removes its input, output and
both pass logs, restoring the virtual FS exactly. -/
theorem worker_cleanup_on_success_witness :
    workerCompressVideo okEnv twoPassPayload ["other.bin"] =
      (.complete 4200 "mp4", ["other.bin"]) :=
  worker_cleanup_on_success okEnv twoPassPayload ["other.bin"] rfl rfl rfl
    (by decide) (by decide) (by decide) (by decide) (by decide) (by decide)
    (by decide) (by decide) (by decide)

end Squash
